import Mathlib

/-!
Verification of the cart cache component in
`examples/onlineboutique/cartservice/cache.go`.

The cache stores, per key, an ordered list of cart line items in a remote
list store (Redis), with a TTL. The store itself is an external collaborator;
it is modelled here at the interface boundary the specification describes:
push-to-list, range-read (with a distinct "key absent" signal), delete,
set-expiry, each of which may instead fail with a transport error. Failures
are injected through an explicit fault schedule indexed by an operation
counter, so that claims about error propagation are statable.

The `CartItem` type and its JSON serialization live outside the excerpt and
are modelled from the specification; everything in `cache.go` itself
(`config.Validate`, `Init`, `Add`, `Get`, `Remove`) is translated line for
line.
-/

namespace CartService

/-- Errors crossing the cache boundary. `redisNil` models the store client's
sentinel for an absent key (`redis.Nil`), `transport` any other network/store
failure, `notFound` the cache's own `errNotFound` value, `decodeErr` a
deserialization failure, and `durationErr` a TTL-string parse failure. -/
inductive GoError where
  | redisNil : GoError
  | transport (msg : String) : GoError
  | notFound : GoError
  | decodeErr (msg : String) : GoError
  | durationErr (s : String) : GoError
deriving DecidableEq

/-- Modelled from the spec: a cart line item is a product identifier (string)
and a quantity (integer); the defining file `cart.go` is not part of the
excerpt, only its use in `cache.go` is. -/
structure CartItem where
  ProductID : String
  Quantity : Int
deriving DecidableEq

/-- One step of big-endian accumulation of a decimal digit. -/
def accDigit (a d : Nat) : Nat := a * 10 + d

/-- The character for decimal digit `d` (for `d < 10`). -/
def digitCh (d : Nat) : Char := Char.ofNat (48 + d)

/-- Little-endian decimal digits of the second argument, with enough fuel in
the first (fuel `n` suffices for value `n`). -/
def natDigitsGo : Nat → Nat → List Nat
  | 0, _ => []
  | _, 0 => []
  | fuel + 1, n + 1 => ((n + 1) % 10) :: natDigitsGo fuel ((n + 1) / 10)

/-- Big-endian decimal digits of `n`, with `[0]` for zero. -/
def natDigitsBE (n : Nat) : List Nat :=
  if n = 0 then [0] else (natDigitsGo n n).reverse

/-- Decimal numeral of a natural number. -/
def natToChars (n : Nat) : List Char := (natDigitsBE n).map digitCh

/-- Decimal numeral of an integer (minus sign for negative values). -/
def intToChars (q : Int) : List Char :=
  if q < 0 then '-' :: natToChars q.natAbs else natToChars q.natAbs

/-- JSON string escaping of the two characters the encoder must escape. -/
def escapeChars : List Char → List Char
  | [] => []
  | c :: t => if c = '\\' ∨ c = '"' then '\\' :: c :: escapeChars t else c :: escapeChars t

/-- Consume an expected literal prefix (first argument) from the input. -/
def parseLit : List Char → List Char → Option (List Char)
  | [], s => some s
  | _ :: _, [] => none
  | c :: l, x :: s => if x = c then parseLit l s else none

/-- Consume the body of a JSON string up to and including its closing quote,
undoing escapes. -/
def parseJStringAux : List Char → Option (List Char × List Char)
  | [] => none
  | c :: t =>
    if c = '\\' then
      match t with
      | [] => none
      | d :: t' =>
        match parseJStringAux t' with
        | none => none
        | some (s, r) => some (d :: s, r)
    else if c = '"' then some ([], t)
    else
      match parseJStringAux t with
      | none => none
      | some (s, r) => some (c :: s, r)

/-- Consume a maximal run of decimal digits, folding them onto `a`. -/
def parseNatAux : Nat → List Char → Nat × List Char
  | a, [] => (a, [])
  | a, c :: t => if c.isDigit then parseNatAux (accDigit a (c.toNat - 48)) t else (a, c :: t)

/-- Parse a nonempty decimal numeral. -/
def parseNat : List Char → Option (Nat × List Char)
  | [] => none
  | c :: t => if c.isDigit then some (parseNatAux 0 (c :: t)) else none

/-- Parse an optionally negated decimal numeral. -/
def parseInt : List Char → Option (Int × List Char)
  | [] => none
  | c :: t =>
    if c = '-' then
      match parseNat t with
      | none => none
      | some (n, r) => some (-(n : Int), r)
    else
      match parseNat (c :: t) with
      | none => none
      | some (n, r) => some ((n : Int), r)

/-- The opening of the serialized item up to the product-id string value. -/
def itemHead : List Char :=
  ['{', '"', 'P', 'r', 'o', 'd', 'u', 'c', 't', 'I', 'D', '"', ':', '"']

/-- The separator between the product-id value and the quantity value. -/
def itemMid : List Char :=
  [',', '"', 'Q', 'u', 'a', 'n', 't', 'i', 't', 'y', '"', ':']

/-- Modelled from the spec: the fixed per-item serialization — each CartItem
is independently encoded to a self-describing structured text format with
field names preserved (a JSON object with the item's two fields). -/
def encodeItemChars (i : CartItem) : List Char :=
  itemHead ++ (escapeChars i.ProductID.data ++
    ('"' :: (itemMid ++ (intToChars i.Quantity ++ ['}']))))

/-- Modelled from the spec: `json.Marshal` applied to a CartItem. For this
item shape (a string field and an integer field) marshalling cannot fail, but
the fallible signature is kept because `Add` checks it. -/
def jsonMarshalItem (i : CartItem) : Except GoError (List Char) :=
  Except.ok (encodeItemChars i)

/-- Modelled from the spec: `json.Unmarshal` into a CartItem — per-element
decoding that reverses the encoding, failing on malformed input. -/
def jsonUnmarshalItem (s : List Char) : Except GoError CartItem :=
  match parseLit itemHead s with
  | none => Except.error (GoError.decodeErr "invalid item object head")
  | some r1 =>
    match parseJStringAux r1 with
    | none => Except.error (GoError.decodeErr "invalid product id string")
    | some (pid, r2) =>
      match parseLit itemMid r2 with
      | none => Except.error (GoError.decodeErr "invalid field separator")
      | some r3 =>
        match parseInt r3 with
        | none => Except.error (GoError.decodeErr "invalid quantity")
        | some (q, r4) =>
          match parseLit ['}'] r4 with
          | none => Except.error (GoError.decodeErr "invalid item object end")
          | some r5 =>
            if r5 = [] then Except.ok ⟨String.mk pid, q⟩
            else Except.error (GoError.decodeErr "trailing data")

/-- Nanoseconds per duration unit, longest unit names first. -/
def parseUnit : List Char → Option (Int × List Char)
  | 'n' :: 's' :: r => some (1, r)
  | 'u' :: 's' :: r => some (1000, r)
  | 'm' :: 's' :: r => some (1000000, r)
  | 's' :: r => some (1000000000, r)
  | 'm' :: r => some (60000000000, r)
  | 'h' :: r => some (3600000000000, r)
  | _ => none

/-- Sum a sequence of integer-and-unit duration segments (fuelled; each
segment consumes at least one character, so `length` fuel suffices). -/
def parseSegs : List Char → Nat → Option Int
  | [], _ => some 0
  | _ :: _, 0 => none
  | s, fuel + 1 =>
    match parseNat s with
    | none => none
    | some (n, r1) =>
      match parseUnit r1 with
      | none => none
      | some (u, r2) =>
        match parseSegs r2 fuel with
        | none => none
        | some rest => some ((n : Int) * u + rest)

/-- Model of Go `time.ParseDuration` (standard library, external to the
repository): optional sign, the special numeral "0", or a nonempty sequence
of integer+unit segments, in nanoseconds. Fractional segments are omitted;
no claim exercises them. -/
def parseDuration (s : String) : Option Int :=
  match s.data with
  | [] => none
  | c :: t =>
    let body := if c = '-' ∨ c = '+' then t else c :: t
    let neg := c = '-'
    if body = ['0'] then some 0
    else if body = [] then none
    else
      match parseSegs body body.length with
      | none => none
      | some n => some (if neg then -n else n)

/-- The component's TOML configuration: cache host and cache TTL strings. -/
structure config where
  Host : String
  TTL : String

/-- `config.Validate` from `cache.go`, translated line for line (including
the polarity of the host check exactly as written there). -/
def config.Validate (cfg : config) : Option String :=
  if cfg.Host ≠ "" then some "distributed cache host must be set"
  else
    match parseDuration cfg.TTL with
    | none => some "distributed cache TTL must be a valid duration"
    | some _ => none

/-- One stored list entry: the elements (head of the list = left end of the
Redis list) and the most recently set TTL, if any. -/
structure REntry where
  items : List (List Char)
  ttl : Option Int
deriving DecidableEq

/-- The remote store's state: an association list from keys to entries. -/
abbrev RStore := List (String × REntry)

/-- Look up a key in the store. -/
def storeLookup : RStore → String → Option REntry
  | [], _ => none
  | (k', e) :: t, k => if k' = k then some e else storeLookup t k

/-- Set a key's entry, replacing the first existing binding. -/
def storeSet : RStore → String → REntry → RStore
  | [], k, e => [(k, e)]
  | (k', e') :: t, k, e => if k' = k then (k, e) :: t else (k', e') :: storeSet t k e

/-- Delete a key's binding. -/
def storeErase : RStore → String → RStore
  | [], _ => []
  | (k', e') :: t, k => if k' = k then t else (k', e') :: storeErase t k

/-- Model of the remote list store client at the interface boundary described
in the spec: store state, a fault schedule (the operation issued at counter
value `n` fails with a transport error when `faults n = some msg`), and the
operation counter. -/
structure RedisClient where
  store : RStore
  faults : Nat → Option String
  clock : Nat

/-- Push a value onto the left end of a key's list, creating the entry (with
no TTL) when absent. -/
def pushEnc (st : RStore) (k : String) (v : List Char) : RStore :=
  match storeLookup st k with
  | some e => storeSet st k ⟨v :: e.items, e.ttl⟩
  | none => storeSet st k ⟨[v], none⟩

/-- Set a key's TTL when the key exists; a no-op on an absent key. -/
def expireSet (st : RStore) (k : String) (d : Int) : RStore :=
  match storeLookup st k with
  | none => st
  | some e => storeSet st k ⟨e.items, some d⟩

/-- `LPUSH key v`: prepend to the key's list, or fail per the fault schedule. -/
def RedisClient.LPush (c : RedisClient) (key : String) (v : List Char) :
    Option GoError × RedisClient :=
  match c.faults c.clock with
  | some m => (some (GoError.transport m), { c with clock := c.clock + 1 })
  | none => (none, { c with store := pushEnc c.store key v, clock := c.clock + 1 })

/-- `LRANGE key 0 -1` as consumed through `Result()`: the value together with
the error, where an absent key yields the `redis.Nil` sentinel. -/
def RedisClient.LRange (c : RedisClient) (key : String) :
    (List (List Char) × Option GoError) × RedisClient :=
  match c.faults c.clock with
  | some m => (([], some (GoError.transport m)), { c with clock := c.clock + 1 })
  | none =>
    match storeLookup c.store key with
    | none => (([], some GoError.redisNil), { c with clock := c.clock + 1 })
    | some e => ((e.items, none), { c with clock := c.clock + 1 })

/-- `EXPIRE key d`: set the key's TTL, or fail per the fault schedule. -/
def RedisClient.Expire (c : RedisClient) (key : String) (d : Int) :
    Option GoError × RedisClient :=
  match c.faults c.clock with
  | some m => (some (GoError.transport m), { c with clock := c.clock + 1 })
  | none => (none, { c with store := expireSet c.store key d, clock := c.clock + 1 })

/-- `DEL key`: remove the key (successful whether or not it existed), or fail
per the fault schedule. -/
def RedisClient.Del (c : RedisClient) (key : String) :
    Option GoError × RedisClient :=
  match c.faults c.clock with
  | some m => (some (GoError.transport m), { c with clock := c.clock + 1 })
  | none => (none, { c with store := storeErase c.store key, clock := c.clock + 1 })

/-- The component's own state from `cache.go`: the parsed TTL. The redis
client handle is passed explicitly to each operation. -/
structure cartCacheImpl where
  ttl : Int

/-- The item loop of `Add`: marshal each item and `LPush` it, returning the
first error immediately. -/
def cartAddLoop : RedisClient → String → List CartItem → Option GoError × RedisClient
  | c, _, [] => (none, c)
  | c, key, item :: rest =>
    match jsonMarshalItem item with
    | Except.error e => (some e, c)
    | Except.ok encItem =>
      match c.LPush key encItem with
      | (some e, c') => (some e, c')
      | (none, c') => cartAddLoop c' key rest

/-- `cartCacheImpl.Add` from `cache.go`: for each item in order, marshal it
and `LPush` it (returning the first error); after the loop, `Expire` the key
with the configured TTL. -/
def cartCacheImpl.Add (impl : cartCacheImpl) (c : RedisClient) (key : String)
    (val : List CartItem) : Option GoError × RedisClient :=
  match cartAddLoop c key val with
  | (some e, c') => (some e, c')
  | (none, c') =>
    match c'.Expire key impl.ttl with
    | (some e, c'') => (some e, c'')
    | (none, c'') => (none, c'')

/-- The element loop of `Get`: unmarshal each stored element in order,
aborting with the first error. -/
def decodeCart : List (List Char) → Except GoError (List CartItem)
  | [] => Except.ok []
  | v :: t =>
    match jsonUnmarshalItem v with
    | Except.error e => Except.error e
    | Except.ok item =>
      match decodeCart t with
      | Except.error e => Except.error e
      | Except.ok cart => Except.ok (item :: cart)

/-- `cartCacheImpl.Get` from `cache.go`: `LRange` the whole list; when the
error is exactly `redis.Nil` return `errNotFound`; otherwise (the source
checks no other error) decode every returned element. -/
def cartCacheImpl.Get (impl : cartCacheImpl) (c : RedisClient) (key : String) :
    (List CartItem × Option GoError) × RedisClient :=
  match c.LRange key with
  | ((val, err), c') =>
    if err = some GoError.redisNil then (([], some GoError.notFound), c')
    else
      match decodeCart val with
      | Except.error e => (([], some e), c')
      | Except.ok cart => ((cart, none), c')

/-- `cartCacheImpl.Remove` from `cache.go`: `Del` the key; `(false, err)` on
a failed delete call, `(true, nil)` otherwise. -/
def cartCacheImpl.Remove (impl : cartCacheImpl) (c : RedisClient) (key : String) :
    (Bool × Option GoError) × RedisClient :=
  match c.Del key with
  | (some e, c') => ((false, some e), c')
  | (none, c') => ((true, none), c')

/-- The observable outcome of `Init`: its error, the parsed TTL, and whether
the client was created and the liveness ping attempted. -/
structure InitOutcome where
  err : Option GoError
  ttl : Int
  clientCreated : Bool
  pingAttempted : Bool
deriving DecidableEq

/-- `cartCacheImpl.Init` from `cache.go`: parse the configured TTL, returning
its error before any client is created or pinged; otherwise create the client
and return the liveness check's outcome (`pingResult`). -/
def cartCacheImpl.Init (cfg : config) (pingResult : Option GoError) : InitOutcome :=
  match parseDuration cfg.TTL with
  | none => ⟨some (GoError.durationErr cfg.TTL), 0, false, false⟩
  | some d => ⟨pingResult, d, true, true⟩

/-- Push a whole list of encoded values, left to right. -/
def pushList : RStore → String → List (List Char) → RStore
  | st, _, [] => st
  | st, k, v :: t => pushList (pushEnc st k v) k t

/-- The elements currently stored under a key (empty when absent). -/
def entryItems (st : RStore) (k : String) : List (List Char) :=
  match storeLookup st k with
  | some e => e.items
  | none => []

/-- The TTL currently recorded under a key (none when absent). -/
def entryTtl (st : RStore) (k : String) : Option Int :=
  match storeLookup st k with
  | some e => e.ttl
  | none => none

/-- A fresh, fault-free client over an empty store. -/
def cFree : RedisClient := ⟨[], fun _ => none, 0⟩

/-- A client whose every operation fails with a transport error. -/
def cDown : RedisClient := ⟨[], fun _ => some "connection refused", 0⟩

/-- A client whose second issued operation (counter value 1) fails. -/
def cOneFault : RedisClient := ⟨[], fun n => if n = 1 then some "broken pipe" else none, 0⟩

/-- Concrete items for witnesses and counterexamples. -/
def itemA : CartItem := ⟨"apple", 2⟩

/-- Concrete items for witnesses and counterexamples. -/
def itemB : CartItem := ⟨"banana", 3⟩

/-- Concrete items for witnesses and counterexamples. -/
def itemC : CartItem := ⟨"cherry", 5⟩

theorem parseLit_append (l s : List Char) : parseLit l (l ++ s) = some s := by
  induction l with
  | nil => rfl
  | cons c t ih => simp [parseLit, ih]

theorem parseJStringAux_escape (s rest : List Char) :
    parseJStringAux (escapeChars s ++ ('"' :: rest)) = some (s, rest) := by
  induction s with
  | nil =>
    show parseJStringAux ('"' :: rest) = some ([], rest)
    rw [parseJStringAux.eq_def]
    simp
  | cons c t ih =>
    by_cases h : c = '\\' ∨ c = '"'
    · simp only [escapeChars, if_pos h, List.cons_append]
      rw [parseJStringAux.eq_def]
      simp [ih]
    · push_neg at h
      simp only [escapeChars, if_neg (not_or.mpr ⟨h.1, h.2⟩), List.cons_append]
      rw [parseJStringAux.eq_def]
      simp [h.1, h.2, ih]

theorem digitCh_isDigit {d : Nat} (h : d < 10) : (digitCh d).isDigit = true := by
  interval_cases d <;> decide

theorem digitCh_toNat {d : Nat} (h : d < 10) : (digitCh d).toNat - 48 = d := by
  interval_cases d <;> decide

theorem digitCh_ne_minus {d : Nat} (h : d < 10) : digitCh d ≠ '-' := by
  interval_cases d <;> decide

theorem parseNatAux_digits (ds : List Nat) (a : Nat) (rest : List Char)
    (h : ∀ d ∈ ds, d < 10) :
    parseNatAux a (ds.map digitCh ++ rest) = parseNatAux (ds.foldl accDigit a) rest := by
  induction ds generalizing a with
  | nil => rfl
  | cons d t ih =>
    have hd : d < 10 := h d (List.mem_cons_self _ _)
    have ht : ∀ x ∈ t, x < 10 := fun x hx => h x (List.mem_cons_of_mem _ hx)
    simp only [List.map_cons, List.cons_append, parseNatAux, digitCh_isDigit hd, if_true]
    rw [digitCh_toNat hd]
    exact ih _ ht

theorem parseNatAux_stop (a : Nat) (c : Char) (rest : List Char) (h : c.isDigit = false) :
    parseNatAux a (c :: rest) = (a, c :: rest) := by
  simp [parseNatAux, h]

theorem natDigitsGo_lt (fuel : Nat) : ∀ n, ∀ d ∈ natDigitsGo fuel n, d < 10 := by
  induction fuel with
  | zero => intro n d hd; simp [natDigitsGo] at hd
  | succ f ih =>
    intro n d hd
    cases n with
    | zero => simp [natDigitsGo] at hd
    | succ m =>
      simp only [natDigitsGo, List.mem_cons] at hd
      rcases hd with h | h
      · subst h; exact Nat.mod_lt _ (by norm_num)
      · exact ih _ _ h

theorem natDigitsGo_foldl (fuel : Nat) :
    ∀ n, n ≤ fuel → ((natDigitsGo fuel n).reverse).foldl accDigit 0 = n := by
  induction fuel with
  | zero =>
    intro n hn
    have : n = 0 := Nat.le_zero.mp hn
    subst this; rfl
  | succ f ih =>
    intro n hn
    cases n with
    | zero => rfl
    | succ m =>
      have hdiv : (m + 1) / 10 ≤ f := by
        have := Nat.div_lt_self (Nat.succ_pos m) (by norm_num : 1 < 10)
        omega
      simp only [natDigitsGo, List.reverse_cons, List.foldl_append]
      rw [ih _ hdiv]
      simp only [List.foldl, accDigit]
      omega

theorem natDigitsBE_lt (n : Nat) : ∀ d ∈ natDigitsBE n, d < 10 := by
  intro d hd
  unfold natDigitsBE at hd
  split at hd
  · simp at hd; omega
  · exact natDigitsGo_lt n n d (List.mem_reverse.mp hd)

theorem natDigitsBE_foldl (n : Nat) : (natDigitsBE n).foldl accDigit 0 = n := by
  unfold natDigitsBE
  split
  · rename_i h; subst h; rfl
  · exact natDigitsGo_foldl n n le_rfl

theorem natDigitsBE_ne_nil (n : Nat) : natDigitsBE n ≠ [] := by
  unfold natDigitsBE
  split
  · simp
  · rename_i h
    cases n with
    | zero => exact absurd rfl h
    | succ m => simp [natDigitsGo]

theorem parseNat_natToChars (n : Nat) (c : Char) (rest : List Char) (h : c.isDigit = false) :
    parseNat (natToChars n ++ (c :: rest)) = some (n, c :: rest) := by
  unfold natToChars
  obtain ⟨d, ds, hds⟩ : ∃ d ds, natDigitsBE n = d :: ds := by
    cases h' : natDigitsBE n with
    | nil => exact absurd h' (natDigitsBE_ne_nil n)
    | cons d ds => exact ⟨d, ds, rfl⟩
  have hall : ∀ x ∈ d :: ds, x < 10 := by rw [← hds]; exact natDigitsBE_lt n
  have hd : d < 10 := hall d (List.mem_cons_self _ _)
  rw [hds]
  simp only [List.map_cons, List.cons_append, parseNat, digitCh_isDigit hd, if_true]
  rw [show (digitCh d :: (List.map digitCh ds ++ (c :: rest)))
        = ((d :: ds).map digitCh ++ (c :: rest)) by simp]
  rw [parseNatAux_digits _ _ _ hall, parseNatAux_stop _ _ _ h, ← hds, natDigitsBE_foldl]

theorem natToChars_head (n : Nat) :
    ∃ d ds, natToChars n = digitCh d :: ds ∧ d < 10 := by
  unfold natToChars
  obtain ⟨d, ds, hds⟩ : ∃ d ds, natDigitsBE n = d :: ds := by
    cases h' : natDigitsBE n with
    | nil => exact absurd h' (natDigitsBE_ne_nil n)
    | cons d ds => exact ⟨d, ds, rfl⟩
  refine ⟨d, ds.map digitCh, ?_, ?_⟩
  · rw [hds]; rfl
  · exact natDigitsBE_lt n d (hds ▸ List.mem_cons_self _ _)

theorem parseInt_intToChars (q : Int) (c : Char) (rest : List Char) (h : c.isDigit = false) :
    parseInt (intToChars q ++ (c :: rest)) = some (q, c :: rest) := by
  unfold intToChars
  by_cases hq : q < 0
  · rw [if_pos hq, List.cons_append]
    have hstep : parseInt ('-' :: (natToChars q.natAbs ++ (c :: rest)))
        = (match parseNat (natToChars q.natAbs ++ (c :: rest)) with
           | none => none
           | some (n, r) => some (-(n : Int), r)) := by
      rw [parseInt.eq_def]
      simp
    rw [hstep, parseNat_natToChars _ _ _ h]
    show some (-(q.natAbs : Int), c :: rest) = some (q, c :: rest)
    have heq : -(q.natAbs : Int) = q := by omega
    rw [heq]
  · rw [if_neg hq]
    obtain ⟨d, ds, hds, hd⟩ := natToChars_head q.natAbs
    have hstep : parseInt ((digitCh d :: ds) ++ (c :: rest))
        = (match parseNat ((digitCh d :: ds) ++ (c :: rest)) with
           | none => none
           | some (n, r) => some ((n : Int), r)) := by
      rw [List.cons_append, parseInt.eq_def]
      simp [digitCh_ne_minus hd]
    rw [hds, hstep, ← hds, parseNat_natToChars _ _ _ h]
    show some ((q.natAbs : Int), c :: rest) = some (q, c :: rest)
    have heq : ((q.natAbs : Int)) = q := by omega
    rw [heq]

theorem unmarshal_marshal (i : CartItem) :
    jsonUnmarshalItem (encodeItemChars i) = Except.ok i := by
  have hlit : parseLit ['}'] ['}'] = some [] := rfl
  simp only [jsonUnmarshalItem, encodeItemChars, parseLit_append, parseJStringAux_escape,
    parseInt_intToChars i.Quantity '}' [] (by decide), hlit]
  rfl

theorem storeLookup_storeSet_self (st : RStore) (k : String) (e : REntry) :
    storeLookup (storeSet st k e) k = some e := by
  induction st with
  | nil => simp [storeSet, storeLookup]
  | cons p t ih =>
    obtain ⟨k', e'⟩ := p
    by_cases h : k' = k
    · subst h; simp [storeSet, storeLookup]
    · simp [storeSet, storeLookup, h, ih]

theorem entryItems_pushEnc (st : RStore) (k : String) (v : List Char) :
    entryItems (pushEnc st k v) k = v :: entryItems st k := by
  unfold pushEnc entryItems
  cases h : storeLookup st k <;> simp [storeLookup_storeSet_self, h]

theorem entryTtl_pushEnc (st : RStore) (k : String) (v : List Char) :
    entryTtl (pushEnc st k v) k = entryTtl st k := by
  unfold pushEnc entryTtl
  cases h : storeLookup st k <;> simp [storeLookup_storeSet_self, h]

theorem storeLookup_pushEnc_isSome (st : RStore) (k : String) (v : List Char) :
    (storeLookup (pushEnc st k v) k).isSome = true := by
  unfold pushEnc
  cases h : storeLookup st k <;> simp [storeLookup_storeSet_self]

theorem entryItems_pushList (st : RStore) (k : String) (l : List (List Char)) :
    entryItems (pushList st k l) k = l.reverse ++ entryItems st k := by
  induction l generalizing st with
  | nil => simp [pushList]
  | cons v t ih =>
    simp only [pushList]
    rw [ih, entryItems_pushEnc]
    simp

theorem entryTtl_pushList (st : RStore) (k : String) (l : List (List Char)) :
    entryTtl (pushList st k l) k = entryTtl st k := by
  induction l generalizing st with
  | nil => simp [pushList]
  | cons v t ih =>
    simp only [pushList]
    rw [ih, entryTtl_pushEnc]

theorem storeLookup_pushList_isSome (st : RStore) (k : String) (l : List (List Char))
    (h : l ≠ []) : (storeLookup (pushList st k l) k).isSome = true := by
  induction l generalizing st with
  | nil => exact absurd rfl h
  | cons v t ih =>
    simp only [pushList]
    cases t with
    | nil => exact storeLookup_pushEnc_isSome st k v
    | cons w u => exact ih _ (List.cons_ne_nil w u)

theorem entryItems_ne_nil_isSome (st : RStore) (k : String)
    (h : entryItems st k ≠ []) : (storeLookup st k).isSome = true := by
  unfold entryItems at h
  cases he : storeLookup st k
  · rw [he] at h; exact absurd rfl h
  · rfl

theorem entryItems_expireSet (st : RStore) (k : String) (d : Int) :
    entryItems (expireSet st k d) k = entryItems st k := by
  unfold expireSet entryItems
  cases h : storeLookup st k <;> simp [storeLookup_storeSet_self, h]

theorem entryTtl_expireSet_present (st : RStore) (k : String) (d : Int)
    (h : (storeLookup st k).isSome = true) :
    entryTtl (expireSet st k d) k = some d := by
  unfold expireSet entryTtl
  cases he : storeLookup st k
  · rw [he] at h; exact absurd h (by simp)
  · simp [storeLookup_storeSet_self]

theorem storeLookup_expireSet_isSome (st : RStore) (k : String) (d : Int)
    (h : (storeLookup st k).isSome = true) :
    (storeLookup (expireSet st k d) k).isSome = true := by
  unfold expireSet
  cases he : storeLookup st k
  · rw [he] at h; exact absurd h (by simp)
  · simp [storeLookup_storeSet_self]

theorem decodeCart_map (l : List CartItem) :
    decodeCart (l.map encodeItemChars) = Except.ok l := by
  induction l with
  | nil => rfl
  | cons i t ih => simp [decodeCart, unmarshal_marshal, ih]

theorem cartAddLoop_faultfree (key : String) (items : List CartItem) :
    ∀ c : RedisClient, (∀ n, c.faults n = none) →
    cartAddLoop c key items =
      (none, ⟨pushList c.store key (items.map encodeItemChars),
              c.faults, c.clock + items.length⟩) := by
  induction items with
  | nil =>
    intro c hff
    simp [cartAddLoop, pushList]
  | cons item rest ih =>
    intro c hff
    simp only [cartAddLoop, jsonMarshalItem, RedisClient.LPush, hff c.clock]
    rw [ih ⟨pushEnc c.store key (encodeItemChars item), c.faults, c.clock + 1⟩ hff]
    have hclk : c.clock + 1 + rest.length = c.clock + (rest.length + 1) := by omega
    simp [pushList, hclk]

theorem cartAdd_faultfree (impl : cartCacheImpl) (c : RedisClient) (key : String)
    (items : List CartItem) (hff : ∀ n, c.faults n = none) :
    cartCacheImpl.Add impl c key items =
      (none, ⟨expireSet (pushList c.store key (items.map encodeItemChars)) key impl.ttl,
              c.faults, c.clock + items.length + 1⟩) := by
  unfold cartCacheImpl.Add
  rw [cartAddLoop_faultfree key items c hff]
  simp only [RedisClient.Expire, hff]

theorem cartGet_present_ok (impl : cartCacheImpl) (c : RedisClient) (key : String)
    (e : REntry) (l : List CartItem)
    (hok : c.faults c.clock = none) (he : storeLookup c.store key = some e)
    (hdec : decodeCart e.items = Except.ok l) :
    cartCacheImpl.Get impl c key = ((l, none), { c with clock := c.clock + 1 }) := by
  unfold cartCacheImpl.Get RedisClient.LRange
  rw [hok, he]
  simp [hdec]

theorem cartGet_of_entryItems (impl : cartCacheImpl) (c : RedisClient) (key : String)
    (l : List CartItem)
    (hok : c.faults c.clock = none)
    (hsome : (storeLookup c.store key).isSome = true)
    (hitems : entryItems c.store key = l.map encodeItemChars) :
    (cartCacheImpl.Get impl c key).1 = (l, none) := by
  obtain ⟨e, he⟩ := Option.isSome_iff_exists.mp hsome
  have hei : e.items = l.map encodeItemChars := by
    unfold entryItems at hitems
    rw [he] at hitems
    exact hitems
  rw [cartGet_present_ok impl c key e l hok he (by rw [hei]; exact decodeCart_map l)]

theorem cartAddLoop_fault (key : String) :
    ∀ (items : List CartItem) (c : RedisClient) (n : Nat) (m : String),
    n < items.length →
    (∀ j, j < n → c.faults (c.clock + j) = none) →
    c.faults (c.clock + n) = some m →
    cartAddLoop c key items =
      (some (GoError.transport m),
       ⟨pushList c.store key ((items.take n).map encodeItemChars),
        c.faults, c.clock + n + 1⟩) := by
  intro items
  induction items with
  | nil =>
    intro c n m hn
    exact absurd hn (by simp)
  | cons item rest ih =>
    intro c n m hn hb hf
    cases n with
    | zero =>
      have hf0 : c.faults c.clock = some m := by simpa using hf
      simp only [cartAddLoop, jsonMarshalItem, RedisClient.LPush, hf0]
      simp [pushList]
    | succ n' =>
      have h0 : c.faults c.clock = none := by
        have := hb 0 (Nat.succ_pos n')
        simpa using this
      simp only [cartAddLoop, jsonMarshalItem, RedisClient.LPush, h0]
      have hb' : ∀ j, j < n' →
          (⟨pushEnc c.store key (encodeItemChars item), c.faults, c.clock + 1⟩ :
            RedisClient).faults (c.clock + 1 + j) = none := by
        intro j hj
        have harith : c.clock + 1 + j = c.clock + (j + 1) := by omega
        show c.faults (c.clock + 1 + j) = none
        rw [harith]
        exact hb (j + 1) (by omega)
      have hf' : c.faults (c.clock + 1 + n') = some m := by
        have harith : c.clock + 1 + n' = c.clock + (n' + 1) := by omega
        rw [harith]
        exact hf
      rw [ih ⟨pushEnc c.store key (encodeItemChars item), c.faults, c.clock + 1⟩ n' m
            (by simpa using Nat.lt_of_succ_lt_succ hn) hb' hf']
      have hclk : c.clock + 1 + n' + 1 = c.clock + (n' + 1) + 1 := by omega
      simp [pushList, hclk]

theorem expireSet_absent (st : RStore) (k : String) (d : Int)
    (h : storeLookup st k = none) : expireSet st k d = st := by
  unfold expireSet
  rw [h]

theorem cartAdd_state (impl : cartCacheImpl) (c : RedisClient) (key : String)
    (items pre : List CartItem) (hff : ∀ n, c.faults n = none)
    (hpre : entryItems c.store key = pre.map encodeItemChars)
    (hne : items ≠ [] ∨ (storeLookup c.store key).isSome = true) :
    (cartCacheImpl.Add impl c key items).1 = none ∧
    entryItems (cartCacheImpl.Add impl c key items).2.store key
      = (items.reverse ++ pre).map encodeItemChars ∧
    (storeLookup (cartCacheImpl.Add impl c key items).2.store key).isSome = true ∧
    entryTtl (cartCacheImpl.Add impl c key items).2.store key = some impl.ttl ∧
    (cartCacheImpl.Add impl c key items).2.faults = c.faults := by
  rw [cartAdd_faultfree impl c key items hff]
  have hsome_pl : (storeLookup (pushList c.store key (items.map encodeItemChars)) key).isSome
      = true := by
    rcases hne with h | h
    · exact storeLookup_pushList_isSome _ _ _ (by simpa using h)
    · cases hm : items.map encodeItemChars with
      | nil => simpa [pushList] using h
      | cons v t => exact storeLookup_pushList_isSome _ _ _ (List.cons_ne_nil v t)
  refine ⟨rfl, ?_, ?_, ?_, rfl⟩
  · rw [entryItems_expireSet, entryItems_pushList, hpre]
    simp [List.map_reverse]
  · exact storeLookup_expireSet_isSome _ _ _ hsome_pl
  · exact entryTtl_expireSet_present _ _ _ hsome_pl

/-- C1: the claim says a non-`redis.Nil` store failure during Get's range
read is returned to the caller; the code checks only `err == redis.Nil`, so
on a transport failure it proceeds with the empty value and returns success
with no items and a nil error. -/
theorem c1_get_swallows_transport (impl : cartCacheImpl) (c : RedisClient)
    (key : String) (m : String) (hf : c.faults c.clock = some m) :
    (cartCacheImpl.Get impl c key).1 = ([], none) := by
  unfold cartCacheImpl.Get RedisClient.LRange
  rw [hf]
  simp [decodeCart]

/-- Witness for C1: on a client whose range read fails with a transport
error, Get completes successfully with no items. -/
theorem c1_get_swallows_transport_witness :
    cDown.faults cDown.clock = some "connection refused" ∧
    (cartCacheImpl.Get ⟨7⟩ cDown "k").1 = ([], none) :=
  ⟨rfl, c1_get_swallows_transport ⟨7⟩ cDown "k" "connection refused" rfl⟩

/-- C2 (amended): for a key absent beforehand, a fault-free Add of a
non-empty `items` succeeds, and a subsequent Get returns `items.reverse` —
the code prepends each item with LPUSH, so Get observes the reverse of the
caller-provided order, not the original order. -/
theorem c2_add_then_get_reversed (impl : cartCacheImpl) (c : RedisClient) (key : String)
    (items : List CartItem) (hne : items ≠ [])
    (habs : storeLookup c.store key = none) (hff : ∀ n, c.faults n = none) :
    (cartCacheImpl.Add impl c key items).1 = none ∧
    (cartCacheImpl.Get impl (cartCacheImpl.Add impl c key items).2 key).1
      = (items.reverse, none) := by
  rw [cartAdd_faultfree impl c key items hff]
  refine ⟨rfl, ?_⟩
  have hmapne : items.map encodeItemChars ≠ [] := by simpa using hne
  have hitems0 : entryItems c.store key = [] := by unfold entryItems; rw [habs]
  apply cartGet_of_entryItems
  · exact hff _
  · exact storeLookup_expireSet_isSome _ _ _ (storeLookup_pushList_isSome _ _ _ hmapne)
  · rw [entryItems_expireSet, entryItems_pushList, hitems0, List.append_nil]
    simp [List.map_reverse]

/-- Counterexample to C2 as stated: adding [itemA, itemB] to a fresh key
and reading it back yields [itemB, itemA], not [itemA, itemB]. -/
theorem c2_add_then_get_counterexample :
    storeLookup cFree.store "k" = none ∧
    (cartCacheImpl.Add ⟨7⟩ cFree "k" [itemA, itemB]).1 = none ∧
    (cartCacheImpl.Get ⟨7⟩ (cartCacheImpl.Add ⟨7⟩ cFree "k" [itemA, itemB]).2 "k").1
      ≠ ([itemA, itemB], none) ∧
    (cartCacheImpl.Get ⟨7⟩ (cartCacheImpl.Add ⟨7⟩ cFree "k" [itemA, itemB]).2 "k").1
      = ([itemB, itemA], none) :=
  ⟨rfl, rfl, by decide, rfl⟩

/-- Witness for C2 (amended) at a concrete input. -/
theorem c2_add_then_get_reversed_witness :
    ([itemA, itemB] ≠ ([] : List CartItem)) ∧
    storeLookup cFree.store "k" = none ∧ (∀ n, cFree.faults n = none) ∧
    ((cartCacheImpl.Add ⟨7⟩ cFree "k" [itemA, itemB]).1 = none ∧
     (cartCacheImpl.Get ⟨7⟩ (cartCacheImpl.Add ⟨7⟩ cFree "k" [itemA, itemB]).2 "k").1
       = ([itemA, itemB].reverse, none)) :=
  ⟨by decide, rfl, fun _ => rfl,
   c2_add_then_get_reversed ⟨7⟩ cFree "k" [itemA, itemB] (by decide) rfl (fun _ => rfl)⟩

/-- C3: the claim says Validate rejects an empty address and accepts a
non-empty address with a valid TTL; the code does the opposite — it returns
the error "distributed cache host must be set" exactly when the host IS set,
and accepts the empty host. -/
theorem c3_validate_polarity_inverted :
    config.Validate ⟨"localhost:6379", "10s"⟩
      = some "distributed cache host must be set" ∧
    config.Validate ⟨"", "10s"⟩ = none ∧
    parseDuration "10s" = some 10000000000 :=
  ⟨rfl, rfl, rfl⟩

/-- C4: Get on a key absent from the store returns the distinct NotFound
error kind and no items — not a transport error and not a successful empty
sequence. -/
theorem c4_get_absent_notfound (impl : cartCacheImpl) (c : RedisClient) (key : String)
    (habs : storeLookup c.store key = none) (hok : c.faults c.clock = none) :
    (cartCacheImpl.Get impl c key).1 = ([], some GoError.notFound) := by
  unfold cartCacheImpl.Get RedisClient.LRange
  rw [hok, habs]
  simp

/-- Witness for C4 at a concrete absent key. -/
theorem c4_get_absent_notfound_witness :
    storeLookup cFree.store "q" = none ∧ cFree.faults cFree.clock = none ∧
    (cartCacheImpl.Get ⟨7⟩ cFree "q").1 = ([], some GoError.notFound) :=
  ⟨rfl, rfl, c4_get_absent_notfound ⟨7⟩ cFree "q" rfl rfl⟩

/-- C5: if the (n+1)-st store operation of an Add fails, Add returns that
error immediately: the first n items remain pushed in the store (no
rollback), the key's TTL is unchanged (no Expire issued), and no further
operation happens (the operation counter advances by exactly n+1). In this
model `json.Marshal` cannot fail for this item shape, so the failing step is
the append. -/
theorem c5_partial_failure (impl : cartCacheImpl) (c : RedisClient) (key : String)
    (items : List CartItem) (n : Nat) (m : String)
    (hn : n < items.length)
    (hb : ∀ j, j < n → c.faults (c.clock + j) = none)
    (hf : c.faults (c.clock + n) = some m) :
    (cartCacheImpl.Add impl c key items).1 = some (GoError.transport m) ∧
    (cartCacheImpl.Add impl c key items).2.store
      = pushList c.store key ((items.take n).map encodeItemChars) ∧
    entryTtl (cartCacheImpl.Add impl c key items).2.store key = entryTtl c.store key ∧
    (cartCacheImpl.Add impl c key items).2.clock = c.clock + n + 1 := by
  unfold cartCacheImpl.Add
  rw [cartAddLoop_fault key items c n m hn hb hf]
  exact ⟨rfl, rfl, entryTtl_pushList _ _ _, rfl⟩

/-- Witness for C5: the second push (operation 1) fails; only the first item
is in the store, the TTL is untouched, and exactly two operations ran. -/
theorem c5_partial_failure_witness :
    (1 < ([itemA, itemB, itemC] : List CartItem).length) ∧
    (∀ j, j < 1 → cOneFault.faults (cOneFault.clock + j) = none) ∧
    cOneFault.faults (cOneFault.clock + 1) = some "broken pipe" ∧
    ((cartCacheImpl.Add ⟨7⟩ cOneFault "k" [itemA, itemB, itemC]).1
       = some (GoError.transport "broken pipe") ∧
     (cartCacheImpl.Add ⟨7⟩ cOneFault "k" [itemA, itemB, itemC]).2.store
       = pushList cOneFault.store "k"
           (([itemA, itemB, itemC].take 1).map encodeItemChars) ∧
     entryTtl (cartCacheImpl.Add ⟨7⟩ cOneFault "k" [itemA, itemB, itemC]).2.store "k"
       = entryTtl cOneFault.store "k" ∧
     (cartCacheImpl.Add ⟨7⟩ cOneFault "k" [itemA, itemB, itemC]).2.clock
       = cOneFault.clock + 1 + 1) :=
  ⟨by decide, by decide, rfl,
   c5_partial_failure ⟨7⟩ cOneFault "k" [itemA, itemB, itemC] 1 "broken pipe"
     (by decide) (by decide) rfl⟩

/-- C6 (amended): for a key absent beforehand and two fault-free Adds with at
least one item in total, Get returns `(items1 ++ items2).reverse` — the
concatenation is in call order but element order is reversed by the LPUSHes —
and the second Add resets the key's TTL to the full configured duration. -/
theorem c6_two_adds (impl : cartCacheImpl) (c : RedisClient) (key : String)
    (items1 items2 : List CartItem)
    (hne : items1 ++ items2 ≠ ([] : List CartItem))
    (habs : storeLookup c.store key = none) (hff : ∀ n, c.faults n = none) :
    (cartCacheImpl.Add impl c key items1).1 = none ∧
    (cartCacheImpl.Add impl (cartCacheImpl.Add impl c key items1).2 key items2).1 = none ∧
    (cartCacheImpl.Get impl
        (cartCacheImpl.Add impl (cartCacheImpl.Add impl c key items1).2 key items2).2 key).1
      = ((items1 ++ items2).reverse, none) ∧
    entryTtl
        (cartCacheImpl.Add impl (cartCacheImpl.Add impl c key items1).2 key items2).2.store key
      = some impl.ttl := by
  have hpre0 : entryItems c.store key = ([] : List CartItem).map encodeItemChars := by
    unfold entryItems
    rw [habs]
    rfl
  by_cases h1e : items1 = []
  · subst h1e
    have h2ne : items2 ≠ [] := by simpa using hne
    have hA1 := cartAdd_faultfree impl c key [] hff
    simp only [List.map_nil, pushList] at hA1
    rw [expireSet_absent _ _ _ habs] at hA1
    rw [hA1]
    have hst := cartAdd_state impl ⟨c.store, c.faults, c.clock + List.length ([] : List CartItem) + 1⟩
        key items2 [] hff hpre0 (Or.inl h2ne)
    obtain ⟨he2, hitems2, hsome2, httl2, hfl2⟩ := hst
    refine ⟨rfl, he2, ?_, httl2⟩
    apply cartGet_of_entryItems
    · rw [congrFun hfl2 _]
      exact hff _
    · exact hsome2
    · rw [hitems2]
      simp
  · have hst1 := cartAdd_state impl c key items1 [] hff hpre0 (Or.inl h1e)
    obtain ⟨he1, hitems1, hsome1, httl1, hfl1⟩ := hst1
    have hff1 : ∀ n, (cartCacheImpl.Add impl c key items1).2.faults n = none := by
      intro n
      rw [congrFun hfl1 n]
      exact hff n
    have hitems1' : entryItems (cartCacheImpl.Add impl c key items1).2.store key
        = (items1.reverse).map encodeItemChars := by
      rw [hitems1]
      simp
    have hst2 := cartAdd_state impl (cartCacheImpl.Add impl c key items1).2 key items2
        items1.reverse hff1 hitems1' (Or.inr hsome1)
    obtain ⟨he2, hitems2, hsome2, httl2, hfl2⟩ := hst2
    refine ⟨he1, he2, ?_, httl2⟩
    apply cartGet_of_entryItems
    · rw [congrFun hfl2 _, congrFun hfl1 _]
      exact hff _
    · exact hsome2
    · rw [hitems2]
      simp [List.reverse_append]

/-- Counterexample to C6 as stated: Add [itemA] then Add [itemC] to a fresh
key; Get returns [itemC, itemA], not [itemA] ++ [itemC]. -/
theorem c6_two_adds_counterexample :
    (cartCacheImpl.Add ⟨9⟩ cFree "u" [itemA]).1 = none ∧
    (cartCacheImpl.Add ⟨9⟩ (cartCacheImpl.Add ⟨9⟩ cFree "u" [itemA]).2 "u" [itemC]).1 = none ∧
    (cartCacheImpl.Get ⟨9⟩
        (cartCacheImpl.Add ⟨9⟩ (cartCacheImpl.Add ⟨9⟩ cFree "u" [itemA]).2 "u" [itemC]).2 "u").1
      ≠ ([itemA] ++ [itemC], none) ∧
    (cartCacheImpl.Get ⟨9⟩
        (cartCacheImpl.Add ⟨9⟩ (cartCacheImpl.Add ⟨9⟩ cFree "u" [itemA]).2 "u" [itemC]).2 "u").1
      = ([itemC, itemA], none) :=
  ⟨rfl, rfl, by decide, rfl⟩

/-- Witness for C6 (amended) at a concrete input. -/
theorem c6_two_adds_witness :
    ([itemA] ++ [itemC] ≠ ([] : List CartItem)) ∧
    storeLookup cFree.store "u" = none ∧ (∀ n, cFree.faults n = none) ∧
    ((cartCacheImpl.Add ⟨9⟩ cFree "u" [itemA]).1 = none ∧
     (cartCacheImpl.Add ⟨9⟩ (cartCacheImpl.Add ⟨9⟩ cFree "u" [itemA]).2 "u" [itemC]).1 = none ∧
     (cartCacheImpl.Get ⟨9⟩
         (cartCacheImpl.Add ⟨9⟩ (cartCacheImpl.Add ⟨9⟩ cFree "u" [itemA]).2 "u" [itemC]).2 "u").1
       = (([itemA] ++ [itemC]).reverse, none) ∧
     entryTtl
         (cartCacheImpl.Add ⟨9⟩ (cartCacheImpl.Add ⟨9⟩ cFree "u" [itemA]).2 "u" [itemC]).2.store "u"
       = some (9 : Int)) :=
  ⟨by decide, rfl, fun _ => rfl,
   c6_two_adds ⟨9⟩ cFree "u" [itemA] [itemC] (by decide) rfl (fun _ => rfl)⟩

/-- C7: for every CartItem, decoding the encoding (the per-item serialization
used by Add, reversed by Get's per-element deserialization) yields the item
back unchanged. -/
theorem c7_roundtrip (i : CartItem) :
    Except.bind (jsonMarshalItem i) jsonUnmarshalItem = Except.ok i :=
  unmarshal_marshal i

/-- C8: Remove returns (true, nil) whenever the delete call succeeds —
independent of prior key existence, which the quantification over every
client state covers — and on a failed delete returns false together with the
store's transport error, propagated as-is. -/
theorem c8_remove_result (impl : cartCacheImpl) (c : RedisClient) (key : String) :
    (cartCacheImpl.Remove impl c key).1 =
      (match c.faults c.clock with
       | none => (true, (none : Option GoError))
       | some m => (false, some (GoError.transport m))) := by
  unfold cartCacheImpl.Remove RedisClient.Del
  cases h : c.faults c.clock <;> simp [h]

/-- C9: a TTL configuration string that fails duration parsing makes Init
return that parse error with no client created and no liveness ping
attempted. -/
theorem c9_init_bad_ttl (cfg : config) (ping : Option GoError)
    (h : parseDuration cfg.TTL = none) :
    cartCacheImpl.Init cfg ping
      = ⟨some (GoError.durationErr cfg.TTL), 0, false, false⟩ := by
  unfold cartCacheImpl.Init
  rw [h]

/-- Witness for C9 with the unparsable TTL string "notaduration". -/
theorem c9_init_bad_ttl_witness :
    parseDuration "notaduration" = none ∧
    cartCacheImpl.Init ⟨"localhost:6379", "notaduration"⟩ none
      = ⟨some (GoError.durationErr "notaduration"), 0, false, false⟩ :=
  ⟨rfl, c9_init_bad_ttl ⟨"localhost:6379", "notaduration"⟩ none rfl⟩

/-- C10: Add with an empty items sequence issues no append: it is exactly
one Expire call with the configured TTL, whose result (and state effect) Add
returns; the operation counter advances by exactly one. -/
theorem c10_add_empty_is_expire (impl : cartCacheImpl) (c : RedisClient) (key : String) :
    cartCacheImpl.Add impl c key [] = c.Expire key impl.ttl ∧
    (cartCacheImpl.Add impl c key []).2.clock = c.clock + 1 := by
  have hmain : cartCacheImpl.Add impl c key [] = c.Expire key impl.ttl := by
    unfold cartCacheImpl.Add cartAddLoop RedisClient.Expire
    cases h : c.faults c.clock <;> simp [h]
  refine ⟨hmain, ?_⟩
  rw [hmain]
  unfold RedisClient.Expire
  cases h : c.faults c.clock <;> simp [h]

end CartService
